import Mathlib

/-!
Verification of the Smart Scheduler agent (sources: `calendar_tools.py`, `main.py`).

The development shallowly embeds the two core components of the program:

* the availability calculator `find_available_slots` (calendar_tools.py,
  lines 54-143), modelled over integer minutes-from-midnight (the source works
  with `datetime` values at the same granularity for every input in scope:
  the working window is 09:00-17:00 = minutes 540-1020 and the cursor moves in
  30-minute steps);
* the time normalizer `parse_time_to_24hour` (main.py, lines 69-91) and the
  tool-call parsing / dispatch section of `main` (main.py, lines 148-209),
  modelled over `List Char` (Python `str`) with Python exceptions made explicit
  as an error type.

Python strings are `List Char`; the string-manipulation helpers below
(`stripWs`, `upperStr`, `replaceAll`, `splitOnChar`, `occursIn`, `pyIntParse`)
are direct models of the Python primitives `str.strip`, `str.upper`,
`str.replace`, `str.split`, the `in` operator and `int()`, restricted to the
ASCII inputs the program manipulates (Python's unicode case table, unicode
whitespace and underscore digit grouping in `int()` are not modelled).
-/

/-- Characters treated as whitespace by Python's `str.strip()` / `int()`
(ASCII fragment). -/
def isWsChar (c : Char) : Bool :=
  c == ' ' || c == '\t' || c == '\n' || c == '\r' || c == '\x0b' || c == '\x0c'

/-- Python `str.strip()`: drop leading and trailing whitespace. -/
def stripWs (xs : List Char) : List Char :=
  ((xs.dropWhile isWsChar).reverse.dropWhile isWsChar).reverse

/-- ASCII decimal digit (the digits accepted by Python's `int()` on the
inputs in scope). -/
def isDigitChar (c : Char) : Bool :=
  48 ≤ c.toNat && c.toNat ≤ 57

/-- Python `str.upper()` on one ASCII character. -/
def upperChar (c : Char) : Char :=
  if 97 ≤ c.toNat && c.toNat ≤ 122 then Char.ofNat (c.toNat - 32) else c

/-- Python `str.upper()`. -/
def upperStr (xs : List Char) : List Char :=
  xs.map upperChar

/-- `leadsWith pat xs` holds when `pat` occurs at the very start of `xs`. -/
def leadsWith : List Char → List Char → Bool
  | [], _ => true
  | _ :: _, [] => false
  | a :: as, b :: bs => a == b && leadsWith as bs

/-- Python's substring test `pat in xs`. -/
def occursIn (pat : List Char) : List Char → Bool
  | [] => leadsWith pat []
  | xs@(_ :: rest) => leadsWith pat xs || occursIn pat rest

/-- Python `str.replace(pat, rep)`: replace every (leftmost, non-overlapping)
occurrence.  The program only calls it with non-empty patterns. -/
def replaceAll (pat rep : List Char) : List Char → List Char
  | [] => []
  | x :: xs =>
    if pat ≠ [] && leadsWith pat (x :: xs) then
      rep ++ replaceAll pat rep ((x :: xs).drop pat.length)
    else
      x :: replaceAll pat rep xs
termination_by l => l.length
decreasing_by
  · simp only [List.length_drop, List.length_cons]
    rename_i hcond
    have hpat : pat ≠ [] := by
      rcases pat with _ | ⟨p, ps⟩
      · simp at hcond
      · simp
    have : 1 ≤ pat.length := List.length_pos.mpr hpat
    omega
  · simp [Nat.lt_succ_self]

/-- Python `str.split(c)` for a one-character separator. -/
def splitOnChar (c : Char) : List Char → List (List Char)
  | [] => [[]]
  | x :: xs =>
    if x == c then [] :: splitOnChar c xs
    else
      match splitOnChar c xs with
      | [] => [[x]]
      | h :: t => (x :: h) :: t

/-- Numeric value of a digit string (most significant first). -/
def digitsVal (xs : List Char) : Nat :=
  xs.foldl (fun a c => 10 * a + (c.toNat - 48)) 0

/-- Python `int(str)`: optional surrounding whitespace, optional sign, then a
non-empty run of decimal digits; anything else raises `ValueError` (modelled
as `none`). -/
def pyIntParse (s : List Char) : Option Int :=
  match stripWs s with
  | [] => none
  | c :: r =>
    if c = '+' then
      if r ≠ [] && r.all isDigitChar then some (digitsVal r) else none
    else if c = '-' then
      if r ≠ [] && r.all isDigitChar then some (-(digitsVal r : Int)) else none
    else if (c :: r).all isDigitChar then some (digitsVal (c :: r)) else none

/-- Decimal digits of a natural number, most significant first. -/
def natDigits (n : Nat) : List Char :=
  Nat.toDigits 10 n

/-- Python f-string `f"{n:02d}"`: zero-pad to width 2 (sign included in the
width, as in Python). -/
def fmt02 (n : Int) : List Char :=
  if n < 0 then '-' :: natDigits n.natAbs
  else
    let ds := natDigits n.toNat
    if ds.length < 2 then '0' :: ds else ds

/-- Python `str(n)` for an integer. -/
def intStr (n : Int) : List Char :=
  if n < 0 then '-' :: natDigits n.natAbs else natDigits n.toNat

/-- The numeric-extraction phase of `parse_time_to_24hour` (main.py lines
73-87), applied to the already stripped-and-uppercased input: detect an
`AM`/`PM` marker by substring search, strip the markers out, split on `:`,
convert the two fields with `int`, and apply the 12-hour adjustment.  Any
failure (wrong number of `:`-fields, non-numeric field) is `none`, the
modelled `except` branch. -/
def extractHM (t : List Char) : Option (Int × Int) :=
  if occursIn ('A' :: ['M']) t || occursIn ('P' :: ['M']) t then
    match splitOnChar ':' (stripWs (replaceAll ('P' :: ['M']) []
        (replaceAll ('A' :: ['M']) [] t))) with
    | [hs, ms] => do
      let h ← pyIntParse hs
      let m ← pyIntParse ms
      let h' : Int :=
        if occursIn ('P' :: ['M']) t && h ≠ 12 then h + 12
        else if occursIn ('A' :: ['M']) t && h = 12 then 0
        else h
      pure (h', m)
    | _ => none
  else
    match splitOnChar ':' t with
    | [hs, ms] => do
      let h ← pyIntParse hs
      let m ← pyIntParse ms
      pure (h, m)
    | _ => none

/-- Model of `parse_time_to_24hour(time_str, date_str)` (main.py lines 69-91):
strip and uppercase the input, extract hour and minute (12-hour adjustment
included), and return `f"{date_str} {hour:02d}:{minute:02d}"`; the function's
blanket `except: return None` is the `none` branch. -/
def parse_time_to_24hour (time_str date_str : List Char) : Option (List Char) :=
  match extractHM (upperStr (stripWs time_str)) with
  | some (h, m) => some (date_str ++ ' ' :: (fmt02 h ++ ':' :: fmt02 m))
  | none => none

/-!
## Availability calculator

`find_available_slots` (calendar_tools.py lines 54-143).  After fetching the
day's events from the calendar collaborator the function runs a pure scan
(lines 103-139) over the working window 9 AM - 5 PM.  Times are modelled as
integer minutes from midnight: the window is `[540, 1020]`, busy intervals are
pairs of minute values extracted from the events, and the scan advances a
cursor in 30-minute increments.
-/

/-- The conflict check of lines 108-115: the candidate slot
`[cursor, cursor + d)` is free iff the overlap test
`max(slot_start, busy_start) < min(slot_end, busy_end)` fails against every
busy interval (the source's early `break` is the failure of `List.all`). -/
def isFreeSlot (busy : List (Int × Int)) (cursor d : Int) : Bool :=
  busy.all fun b => !(max cursor b.1 < min (cursor + d) b.2)

/-- The `while slot_start + duration <= time_max` loop of lines 106-125,
written with explicit fuel (each recursive step is one loop iteration; the
wrapper `availableSlots` supplies exactly the number of iterations the
source's loop performs, see `slotScan_fuel_irrelevant`).  Returns the list of
accepted cursor positions (`available_slots`), in the order appended. -/
def slotScan (busy : List (Int × Int)) (d : Int) : Nat → Int → List Int
  | 0, _ => []
  | fuel + 1, cursor =>
    if cursor + d ≤ 1020 then
      (if isFreeSlot busy cursor d then [cursor] else []) ++
        slotScan busy d fuel (cursor + 30)
    else []

/-- Number of iterations of the source's loop: the cursor runs
`540, 570, ...` while `cursor + d ≤ 1020`. -/
def scanFuel (d : Int) : Nat :=
  (((1020 - 540) - d) / 30 + 1).toNat

/-- The complete `available_slots` list built by lines 103-125. -/
def availableSlots (busy : List (Int × Int)) (d : Int) : List Int :=
  slotScan busy d (scanFuel d) 540

/-- Result of the slot search, lines 127-139: the `status` field of the JSON
the function returns, together with the (at most 6) slot start times carried
in `available_slots`. -/
inductive SlotsResult where
  | success (slots : List Int)
  | no_slots
deriving DecidableEq

/-- Model of `find_available_slots` for a valid date: the scan of lines
103-125 followed by the status selection of lines 127-139 (`no_slots` when
the list is empty, otherwise `success` with `available_slots[:6]`).  The date
only determines which busy set the collaborator returns, so it appears here
as the extracted `busy` list; a malformed date or a collaborator failure is
caught by the function's blanket `except` and surfaces as a `status: error`
JSON (modelled in `find_available_slots_json` below). -/
def find_available_slots (busy : List (Int × Int)) (d : Int) : SlotsResult :=
  let avail := availableSlots busy d
  if avail.isEmpty then .no_slots else .success (avail.take 6)

/-- The spec's description of the same loop (§4.2): accepted candidates are
collected while the cursor scans the window, and enumeration stops as soon as
`limit` candidates have been collected (or the window is exhausted).  This is
the second definition of the C6 refinement claim, written from the spec's
words, to be compared with the source's scan-everything-then-truncate. -/
def slotScanEarlyStop (busy : List (Int × Int)) (d : Int) :
    Nat → Nat → Int → List Int
  | _, 0, _ => []
  | 0, _, _ => []
  | fuel + 1, limit + 1, cursor =>
    if cursor + d ≤ 1020 then
      if isFreeSlot busy cursor d then
        cursor :: slotScanEarlyStop busy d fuel limit (cursor + 30)
      else
        slotScanEarlyStop busy d fuel (limit + 1) (cursor + 30)
    else []

/-!
## JSON values and `json.loads`

The dispatch section of `main` (main.py lines 167-209) decodes a JSON object
out of the model's output with `json.loads` and re-serializes tool results
with `json.dumps`.  `Json` models Python's decoded values (`dict`/`list`/
`str`/`int`/`bool`/`None`); the recursive-descent reader below models
`json.loads` restricted to the payloads in scope: numeric literals are
integers (no fraction or exponent) and string escapes cover the simple
escapes (no `\u` hex escapes). -/
inductive Json where
  | null
  | jbool (b : Bool)
  | jnum (n : Int)
  | jstr (s : List Char)
  | jarr (elems : List Json)
  | jobj (members : List (List Char × Json))

/-- JSON inter-token whitespace (RFC 8259 / Python `json`). -/
def isJsonWs (c : Char) : Bool :=
  c == ' ' || c == '\t' || c == '\n' || c == '\r'

/-- Skip inter-token whitespace. -/
def skipJsonWs (s : List Char) : List Char :=
  s.dropWhile isJsonWs

/-- Read the body of a JSON string literal (opening quote already consumed);
returns the decoded characters and the rest of the input.  Raw control
characters are rejected, as in Python's strict mode. -/
def readJsonString : Nat → List Char → Option (List Char × List Char)
  | 0, _ => none
  | _, [] => none
  | fuel + 1, c :: rest =>
    if c == '"' then some ([], rest)
    else if c == '\\' then
      match rest with
      | '"' :: r => (readJsonString fuel r).map fun p => ('"' :: p.1, p.2)
      | '\\' :: r => (readJsonString fuel r).map fun p => ('\\' :: p.1, p.2)
      | '/' :: r => (readJsonString fuel r).map fun p => ('/' :: p.1, p.2)
      | 'n' :: r => (readJsonString fuel r).map fun p => ('\n' :: p.1, p.2)
      | 't' :: r => (readJsonString fuel r).map fun p => ('\t' :: p.1, p.2)
      | 'r' :: r => (readJsonString fuel r).map fun p => ('\r' :: p.1, p.2)
      | 'b' :: r => (readJsonString fuel r).map fun p => ('\x08' :: p.1, p.2)
      | 'f' :: r => (readJsonString fuel r).map fun p => ('\x0c' :: p.1, p.2)
      | _ => none
    else if c.toNat < 32 then none
    else (readJsonString fuel rest).map fun p => (c :: p.1, p.2)

/-- Read a JSON integer literal: optional `-`, then digits with no redundant
leading zero. -/
def readJsonInt (s : List Char) : Option (Int × List Char) :=
  let core : List Char → Option (Int × List Char) := fun t =>
    let ds := t.takeWhile isDigitChar
    let rest := t.dropWhile isDigitChar
    if ds = [] then none
    else if ds.length > 1 && ds.headD ' ' == '0' then none
    else some ((digitsVal ds : Int), rest)
  match s with
  | '-' :: t => (core t).map fun p => (-p.1, p.2)
  | t => core t

mutual

/-- One JSON value (leading whitespace already skipped). -/
def readJsonVal : Nat → List Char → Option (Json × List Char)
  | 0, _ => none
  | fuel + 1, s =>
    match s with
    | '{' :: rest => readJsonMembers fuel (skipJsonWs rest) true
    | '[' :: rest => readJsonItems fuel (skipJsonWs rest) true
    | '"' :: rest => (readJsonString (rest.length + 1) rest).map fun p => (.jstr p.1, p.2)
    | 't' :: 'r' :: 'u' :: 'e' :: rest => some (.jbool true, rest)
    | 'f' :: 'a' :: 'l' :: 's' :: 'e' :: rest => some (.jbool false, rest)
    | 'n' :: 'u' :: 'l' :: 'l' :: rest => some (.null, rest)
    | t => (readJsonInt t).map fun p => (.jnum p.1, p.2)

/-- Members of an object, after `{` (and, when `first` is false, after a
consumed `,`).  Leading whitespace already skipped. -/
def readJsonMembers : Nat → List Char → Bool → Option (Json × List Char)
  | 0, _, _ => none
  | fuel + 1, s, first =>
    match s with
    | '}' :: rest => if first then some (.jobj [], rest) else none
    | '"' :: rest => do
      let (key, afterKey) ← readJsonString (rest.length + 1) rest
      match skipJsonWs afterKey with
      | ':' :: afterColon => do
        let (v, afterVal) ← readJsonVal fuel (skipJsonWs afterColon)
        match skipJsonWs afterVal with
        | ',' :: afterComma => do
          let (tail, rest') ← readJsonMembers fuel (skipJsonWs afterComma) false
          match tail with
          | .jobj kvs => some (.jobj ((key, v) :: kvs), rest')
          | _ => none
        | '}' :: rest' => some (.jobj [(key, v)], rest')
        | _ => none
      | _ => none
    | _ => none

/-- Items of an array, after `[` (and, when `first` is false, after a
consumed `,`).  Leading whitespace already skipped. -/
def readJsonItems : Nat → List Char → Bool → Option (Json × List Char)
  | 0, _, _ => none
  | fuel + 1, s, first =>
    match s with
    | ']' :: rest => if first then some (.jarr [], rest) else none
    | _ => do
      let (v, afterVal) ← readJsonVal fuel (skipJsonWs s)
      match skipJsonWs afterVal with
      | ',' :: afterComma => do
        let (tail, rest') ← readJsonItems fuel (skipJsonWs afterComma) false
        match tail with
        | .jarr vs => some (.jarr (v :: vs), rest')
        | _ => none
      | ']' :: rest' => some (.jarr [v], rest')
      | _ => none

end

/-- Model of `json.loads`: one value, surrounding whitespace allowed, no
trailing data (`Extra data` is a decode error); `none` is
`json.JSONDecodeError`. -/
def jsonLoads (s : List Char) : Option Json :=
  match readJsonVal (s.length + 1) (skipJsonWs s) with
  | some (v, rest) => if skipJsonWs rest = [] then some v else none
  | none => none

/-!
## Tool-call detection and dispatch (main.py lines 148-209)

The `try` block of the loop body catches exactly `json.JSONDecodeError` and
`KeyError` (line 205); any other exception — in particular the `TypeError`
Python raises when `f(**kwargs)` is given argument names that do not match
`f`'s parameters, or when a non-`dict` is subscripted with a string key —
propagates out of the iteration and kills the session.  `PyErr` models the
exception classes that can arise in this block. -/
inductive PyErr where
  | typeError
  | keyError
  | jsonDecodeError
deriving DecidableEq

/-- Python's `d[key]` for a decoded JSON value: a `dict` yields the value
stored under the key (duplicate keys in the JSON text: last one wins, as in
`json.loads`), a missing key raises `KeyError`, and subscripting any
non-`dict` decoded value (`int`, `list`, `str`...) with a string key raises
`TypeError`. -/
def pyGetItem (v : Json) (key : List Char) : Except PyErr Json :=
  match v with
  | .jobj kvs =>
    match (kvs.filter fun kv => kv.1 = key).getLast? with
    | some kv => .ok kv.2
    | none => .error .keyError
  | _ => .error .typeError

/-- Lines 171-173: `response_text[response_text.find("{") :
response_text.rfind("}") + 1]` — the substring from the first `{` to the last
`}` (empty when there is no `}`, since `rfind` returns `-1`). -/
def sliceBraces (rt : List Char) : List Char :=
  match rt.findIdx? (· == '{'), (rt.reverse.findIdx? (· == '}')) with
  | some i, some k => (rt.drop i).take (rt.length - k - i)
  | _, _ => []

/-- A parsed tool invocation: `tool_call_data["tool_call"]["name"]` and
`tool_call_data["tool_call"]["arguments"]` (lines 176-177), kept as the
decoded JSON values Python binds. -/
structure ToolInvocation where
  name : Json
  arguments : Json

/-- The tool-call detection of lines 167-177, with the `except
(json.JSONDecodeError, KeyError)` handler of line 205 folded in: `.ok none`
means the output is treated as plain conversational text (either the marker
test failed, or decoding / a key lookup failed with a caught exception);
`.error e` is an exception the handler does not catch (a `TypeError` from
subscripting a non-`dict`). -/
def parseToolCall (rt : List Char) : Except PyErr (Option ToolInvocation) :=
  if occursIn "tool_call".toList rt && rt.contains '{' then
    match jsonLoads (sliceBraces rt) with
    | none => .ok none
    | some data =>
      match pyGetItem data ("tool_call".toList) with
      | .error .keyError => .ok none
      | .error e => .error e
      | .ok tc =>
        match pyGetItem tc ("name".toList) with
        | .error .keyError => .ok none
        | .error e => .error e
        | .ok nm =>
          match pyGetItem tc ("arguments".toList) with
          | .error .keyError => .ok none
          | .error e => .error e
          | .ok args => .ok (some ⟨nm, args⟩)
  else .ok none

/-!
## The tool bodies as the dispatcher sees them

`calendar_tools.find_available_slots` and `calendar_tools.schedule_meeting`
both wrap their whole body in `try/except Exception` and return a JSON string
in every case, so from the dispatcher's point of view they are total
functions to a JSON result; the only exception a dispatch can raise is the
`TypeError` produced by keyword-argument binding itself, before the body
runs. -/

/-- Days per month, as validated by `datetime.strptime(.., "%Y-%m-%d")`. -/
def daysInMonth (y mo : Nat) : Nat :=
  if mo = 2 then
    if y % 4 = 0 && (y % 100 ≠ 0 || y % 400 = 0) then 29 else 28
  else if mo = 4 || mo = 6 || mo = 9 || mo = 11 then 30
  else 31

/-- `datetime.strptime(date_str, "%Y-%m-%d")`: three `-`-separated digit
groups (year at most 4 digits, month and day at most 2) forming a calendar
date; `none` is the `ValueError` the source's `except` catches. -/
def parseDate (ds : List Char) : Option (Nat × Nat × Nat) :=
  match splitOnChar '-' ds with
  | [ys, ms, dstr] =>
    if ys ≠ [] && ys.all isDigitChar && ys.length ≤ 4 &&
       ms ≠ [] && ms.all isDigitChar && ms.length ≤ 2 &&
       dstr ≠ [] && dstr.all isDigitChar && dstr.length ≤ 2 then
      let y := digitsVal ys
      let mo := digitsVal ms
      let d := digitsVal dstr
      if 1 ≤ mo && mo ≤ 12 && 1 ≤ d && d ≤ daysInMonth y mo then
        some (y, mo, d)
      else none
    else none
  | _ => none

/-- `strftime("%H:%M")` of a slot start, taken modulo one day (`datetime`
rolls a cursor pushed past midnight into the next day; only reachable for
negative durations and immaterial to every claim, which inspect statuses and
start minutes). -/
def fmt24 (t : Int) : List Char :=
  fmt02 ((t % 1440) / 60) ++ ':' :: fmt02 ((t % 1440) % 60)

/-- `strftime("%I:%M %p")` of a slot start (12-hour clock, zero-padded,
`AM`/`PM`). -/
def fmtTime12 (t : Int) : List Char :=
  let h := (t % 1440) / 60
  let h12 := if h % 12 = 0 then 12 else h % 12
  fmt02 h12 ++ ':' :: fmt02 ((t % 1440) % 60) ++
    (if h < 12 then ' ' :: ('A' :: ['M']) else ' ' :: ('P' :: ['M']))

/-- One entry of `available_slots` (calendar_tools.py lines 118-122). -/
def slotEntry (date : List Char) (t : Int) : Json :=
  .jobj [("time".toList, .jstr (fmtTime12 t)),
         ("time_24h".toList, .jstr (fmt24 t)),
         ("datetime".toList, .jstr (date ++ ' ' :: fmt24 t))]

/-- `json.dumps({"status": "error", "message": msg})`, the shape every
caught failure is converted to. -/
def errorJson (msg : List Char) : Json :=
  .jobj [("status".toList, .jstr ('e' :: 'r' :: 'r' :: 'o' :: ['r'])),
         ("message".toList, .jstr msg)]

/-- The full JSON result of `calendar_tools.find_available_slots(duration,
date)` (lines 54-143) once the calendar collaborator has produced `busy`:
the argument values arrive as decoded JSON; a non-numeric duration or a
non-string/unparsable date raises inside the body and is converted to a
`status: error` result by the blanket `except` (its `str(e)` message text is
collaborator/runtime-formatted and modelled by a fixed message). -/
def find_available_slots_json (busy : List (Int × Int)) (duration date : Json) :
    Json :=
  match duration, date with
  | .jnum d, .jstr ds =>
    match parseDate ds with
    | some _ =>
      match find_available_slots busy d with
      | .success slots =>
        .jobj [("status".toList, .jstr "success".toList),
               ("date".toList, .jstr ds),
               ("duration_minutes".toList, .jnum d),
               ("available_slots".toList, .jarr (slots.map (slotEntry ds)))]
      | .no_slots =>
        .jobj [("status".toList, .jstr "no_slots".toList),
               ("message".toList, .jstr
                 ("No available ".toList ++ intStr d ++
                  "-minute slots found on ".toList ++ ds ++
                  " between 9 AM and 5 PM.".toList)),
               ("suggestion".toList, .jstr
                 "Would you like to try a different date or time range?".toList)]
    | none => errorJson "time data does not match format %Y-%m-%d".toList
  | _, _ => errorJson "invalid argument types for find_available_slots".toList

/-- `datetime.strptime(s, "%Y-%m-%d %H:%M")` succeeds: a valid date, one
space, then `HH:MM` with hour 0-23 and minute 0-59. -/
def validDateTime (s : List Char) : Bool :=
  match splitOnChar ' ' s with
  | [ds, ts] =>
    (parseDate ds).isSome &&
      (match splitOnChar ':' ts with
       | [hs, ms] =>
         hs ≠ [] && hs.all isDigitChar && hs.length ≤ 2 &&
         ms ≠ [] && ms.all isDigitChar && ms.length ≤ 2 &&
         digitsVal hs ≤ 23 && digitsVal ms ≤ 59
       | _ => false)
  | _ => false

/-- The JSON result of `calendar_tools.schedule_meeting` (lines 145-210):
total from the dispatcher's point of view (the body is wrapped in
`try/except`).  The event id/link and the formatted message come from the
calendar collaborator and `strftime`; the claims never inspect them, so they
are modelled by fixed placeholder strings, while the status logic — success
when the start datetime parses and the collaborator insert succeeds, error
otherwise — follows the source. -/
def schedule_meeting_json (_title duration start_datetime _descr : Json) : Json :=
  match duration, start_datetime with
  | .jnum _, .jstr s =>
    if validDateTime s then
      .jobj [("status".toList, .jstr "success".toList),
             ("message".toList, .jstr "Meeting scheduled successfully".toList),
             ("event_id".toList, .jstr "event-id".toList),
             ("event_link".toList, .jstr "event-link".toList)]
    else errorJson "time data does not match format %Y-%m-%d %H:%M".toList
  | _, _ => errorJson "invalid argument types for schedule_meeting".toList

/-- Keyword-argument binding for `f(**kwargs)`: Python raises `TypeError`
unless every required parameter receives a value and every keyword matches a
parameter. -/
def bindOk (kvs : List (List Char × Json))
    (required optional : List (List Char)) : Bool :=
  (required.all fun p => kvs.any fun kv => kv.1 = p) &&
    (kvs.all fun kv => (required ++ optional).any fun p => p = kv.1)

/-- Value bound to parameter `p` by `f(**kvs)` (present whenever `bindOk`
holds; duplicate JSON keys collapse dict-style, last one wins). -/
def boundArg (kvs : List (List Char × Json)) (p : List Char) : Json :=
  match (kvs.filter fun kv => kv.1 = p).getLast? with
  | some kv => kv.2
  | none => .null

/-- Lines 181-187: dispatch on the parsed tool name.  A recognized name calls
the tool with `**function_args` — `TypeError` when the arguments value is not
a mapping or its keys do not match the tool's parameters — and an
unrecognized name (any other value, string or not) builds the generic
`{"status": "error", "message": "Unknown tool."}` result without
dispatching. -/
def dispatchTool (busy : List (Int × Int)) (name arguments : Json) :
    Except PyErr Json :=
  match name with
  | .jstr s =>
    if s = "find_available_slots".toList then
      match arguments with
      | .jobj kvs =>
        if bindOk kvs ["duration_minutes".toList, "date_str".toList] [] then
          .ok (find_available_slots_json busy
                (boundArg kvs "duration_minutes".toList)
                (boundArg kvs "date_str".toList))
        else .error .typeError
      | _ => .error .typeError
    else if s = "schedule_meeting".toList then
      match arguments with
      | .jobj kvs =>
        if bindOk kvs
            ["title".toList, "duration_minutes".toList, "start_datetime".toList]
            ["description".toList] then
          .ok (schedule_meeting_json
                (boundArg kvs "title".toList)
                (boundArg kvs "duration_minutes".toList)
                (boundArg kvs "start_datetime".toList)
                (boundArg kvs "description".toList))
        else .error .typeError
      | _ => .error .typeError
    else .ok (errorJson "Unknown tool.".toList)
  | _ => .ok (errorJson "Unknown tool.".toList)

/-- Role of a transcript turn (`conversation_history` entries). -/
inductive Role where
  | user
  | model
deriving DecidableEq

/-- Content of a transcript turn.  The source stores strings; the tool-result
turn (line 193) stores `f"TOOL_RESPONSE: {tool_result}"`, modelled as the
`toolResponse` constructor carrying the structured result — the constructor
is the fixed sentinel prefix distinguishing it from genuine user text. -/
inductive TurnContent where
  | text (s : List Char)
  | toolResponse (result : Json)

/-- One `conversation_history` entry. -/
structure Turn where
  role : Role
  content : TurnContent

/-- One iteration of the `while True` loop of `main` (main.py lines 148-209)
for a non-empty, non-exit user utterance.  The language-model collaborator's
two outputs — the raw response (line 164, already `.strip()`ed) and the
post-tool summary (line 196) — enter as parameters, as does the busy set the
calendar collaborator would serve.  Returns the transcript after the
iteration together with the uncaught exception, if one escaped (in which case
the process dies at that point and nothing further is appended). -/
def mainLoopIteration (history : List Turn)
    (user_input response_text summary : List Char)
    (busy : List (Int × Int)) : List Turn × Option PyErr :=
  let h1 := history ++ [⟨.user, .text user_input⟩]
  match parseToolCall response_text with
  | .ok none => (h1 ++ [⟨.model, .text response_text⟩], none)
  | .ok (some inv) =>
    match dispatchTool busy inv.name inv.arguments with
    | .ok result =>
      (h1 ++ [⟨.model, .text response_text⟩,
              ⟨.user, .toolResponse result⟩,
              ⟨.model, .text summary⟩], none)
    | .error e => (h1, some e)
  | .error e => (h1, some e)

/-- A model output whose tool call misnames the duration argument: keyword
binding raises `TypeError`, which the loop's `except (json.JSONDecodeError,
KeyError)` does not catch. -/
def kwargsMismatchOutput : List Char :=
  "\x7b\"tool_call\": \x7b\"name\": \"find_available_slots\", \"arguments\": \x7b\"minutes\": 30\x7d\x7d\x7d".toList

/-- Same failure with a differently misnamed argument (used for the
transcript claim). -/
def kwargsMismatchOutput2 : List Char :=
  "\x7b\"tool_call\": \x7b\"name\": \"find_available_slots\", \"arguments\": \x7b\"mins\": 30\x7d\x7d\x7d".toList


/-!
## Lemmas about the slot scan
-/

theorem slotScan_fuel_irrelevant (busy : List (Int × Int)) (d : Int) :
    ∀ (f1 f2 : Nat) (c : Int),
      1020 - d - c < 30 * f1 → 1020 - d - c < 30 * f2 →
      slotScan busy d f1 c = slotScan busy d f2 c := by
  intro f1
  induction f1 with
  | zero =>
    intro f2 c h1 _
    cases f2 with
    | zero => rfl
    | succ m =>
      simp only [slotScan]
      rw [if_neg (by omega)]
  | succ n ih =>
    intro f2 c h1 h2
    cases f2 with
    | zero =>
      simp only [slotScan]
      rw [if_neg (by omega)]
    | succ m =>
      simp only [slotScan]
      by_cases hc : c + d ≤ 1020
      · rw [if_pos hc, if_pos hc]
        have := ih m (c + 30) (by omega) (by omega)
        rw [this]
      · rw [if_neg hc, if_neg hc]

theorem slotScan_mem (busy : List (Int × Int)) (d : Int) :
    ∀ (fuel : Nat) (c s : Int), s ∈ slotScan busy d fuel c →
      isFreeSlot busy s d = true ∧ c ≤ s ∧ s + d ≤ 1020 := by
  intro fuel
  induction fuel with
  | zero => intro c s h; simp [slotScan] at h
  | succ n ih =>
    intro c s h
    simp only [slotScan] at h
    by_cases hc : c + d ≤ 1020
    · rw [if_pos hc] at h
      rcases List.mem_append.mp h with h1 | h2
      · by_cases hf : isFreeSlot busy c d
        · rw [if_pos hf] at h1
          simp only [List.mem_singleton] at h1
          subst h1
          exact ⟨hf, le_refl _, hc⟩
        · rw [if_neg hf] at h1
          simp at h1
      · obtain ⟨hfree, hle, hcl⟩ := ih (c + 30) s h2
        exact ⟨hfree, by omega, hcl⟩
    · rw [if_neg hc] at h
      simp at h

theorem slotScan_sorted (busy : List (Int × Int)) (d : Int) :
    ∀ (fuel : Nat) (c : Int), (slotScan busy d fuel c).Pairwise (· < ·) := by
  intro fuel
  induction fuel with
  | zero => intro c; simp [slotScan]
  | succ n ih =>
    intro c
    simp only [slotScan]
    by_cases hc : c + d ≤ 1020
    · rw [if_pos hc]
      by_cases hf : isFreeSlot busy c d
      · rw [if_pos hf]
        simp only [List.singleton_append, List.pairwise_cons]
        refine ⟨fun s hs => ?_, ih (c + 30)⟩
        have := (slotScan_mem busy d n (c + 30) s hs).2.1
        omega
      · rw [if_neg hf]
        simpa using ih (c + 30)
    · rw [if_neg hc]
      simp

theorem slotScan_take_eq_earlyStop (busy : List (Int × Int)) (d : Int) :
    ∀ (fuel limit : Nat) (c : Int),
      (slotScan busy d fuel c).take limit = slotScanEarlyStop busy d fuel limit c := by
  intro fuel
  induction fuel with
  | zero => intro limit c; cases limit <;> simp [slotScan, slotScanEarlyStop]
  | succ n ih =>
    intro limit c
    cases limit with
    | zero => simp [slotScanEarlyStop]
    | succ k =>
      simp only [slotScan, slotScanEarlyStop]
      by_cases hc : c + d ≤ 1020
      · rw [if_pos hc, if_pos hc]
        by_cases hf : isFreeSlot busy c d
        · rw [if_pos hf, if_pos hf]
          simp only [List.singleton_append, List.take_succ_cons]
          rw [ih k (c + 30)]
        · rw [if_neg hf, if_neg hf]
          simp only [List.nil_append]
          exact ih (k + 1) (c + 30)
      · rw [if_neg hc, if_neg hc]
        simp

theorem slotScan_all_free (busy : List (Int × Int)) (d : Int)
    (hfree : ∀ c : Int, isFreeSlot busy c d = true) :
    ∀ (fuel : Nat) (c : Int), c + d ≤ 1020 → fuel ≠ 0 →
      ∃ rest, slotScan busy d fuel c = c :: rest := by
  intro fuel
  cases fuel with
  | zero => intro c _ h; exact absurd rfl h
  | succ n =>
    intro c hc _
    refine ⟨slotScan busy d n (c + 30), ?_⟩
    simp only [slotScan]
    rw [if_pos hc, hfree c]
    simp

theorem isFreeSlot_of_nonpos (busy : List (Int × Int)) (d : Int) (hd : d ≤ 0) :
    ∀ c : Int, isFreeSlot busy c d = true := by
  intro c
  simp only [isFreeSlot, List.all_eq_true]
  intro b _
  simp only [Bool.not_eq_true', decide_eq_false_iff_not, not_lt]
  have h1 : min (c + d) b.2 ≤ c + d := min_le_left _ _
  have h2 : c ≤ max c b.1 := le_max_left _ _
  omega

theorem scanFuel_pos (d : Int) (hd : d ≤ 480) : scanFuel d ≠ 0 := by
  simp only [scanFuel]
  omega

/-!
## Claims about the availability calculator
-/

/-- C1: for every duration and busy set, every candidate in the slot list
returned by `find_available_slots` with status `success` is conflict-free:
the slot `[s, s + d)` overlaps no busy interval under the overlap test
`max(a.start, b.start) < min(a.end, b.end)`.  (The date only selects the
busy set the calendar collaborator serves, which is quantified here.) -/
theorem c1_success_slots_conflict_free (busy : List (Int × Int)) (d : Int)
    (slots : List Int) (hres : find_available_slots busy d = .success slots) :
    ∀ s ∈ slots, ∀ b ∈ busy, ¬ (max s b.1 < min (s + d) b.2) := by
  intro s hs b hb
  simp only [find_available_slots] at hres
  by_cases he : (availableSlots busy d).isEmpty
  · rw [if_pos he] at hres
    exact SlotsResult.noConfusion hres
  · rw [if_neg he] at hres
    injection hres with h
    subst h
    have hmem : s ∈ availableSlots busy d := List.take_subset _ _ hs
    have hfree := (slotScan_mem busy d _ _ s hmem).1
    simp only [isFreeSlot, List.all_eq_true] at hfree
    have hb' := hfree b hb
    simp only [Bool.not_eq_true', decide_eq_false_iff_not] at hb'
    exact hb'

/-- Witness for C1 at a concrete input: with one busy interval 10:00-11:00
and a 30-minute request, 11:00 (=660) is among the returned slots and its
candidate interval does not overlap the busy interval. -/
theorem c1_witness :
    find_available_slots [(600, 660)] 30 =
      .success [540, 570, 660, 690, 720, 750] ∧
    ¬ (max (660 : Int) 600 < min (660 + 30) 660) :=
  ⟨by decide,
   c1_success_slots_conflict_free [(600, 660)] 30 [540, 570, 660, 690, 720, 750]
     (by decide) 660 (by decide) (600, 660) (by decide)⟩

/-- C4, counterexample: the claim quantifies over *every* duration, but for
duration 0 the loop accepts every cursor position even when the busy set
`[(540, 1020)]` covers the whole working window `[09:00, 17:00)`, so the
result is `success`, not `no_slots`. -/
theorem c4_counterexample :
    find_available_slots [(540, 1020)] 0 =
      .success [540, 570, 600, 630, 660, 690] ∧
    find_available_slots [(540, 1020)] 0 ≠ .no_slots :=
  ⟨by decide, by decide⟩

/-- C4 as amended: for every *positive* duration, a busy set that fully
covers the working window `[540, 1020)` forces every candidate to conflict,
so `find_available_slots` returns `no_slots` (a normal result value, not an
exception — the model is a total function). -/
theorem c4_cover_gives_no_slots (busy : List (Int × Int)) (d : Int)
    (hd : 1 ≤ d)
    (hcover : ∀ t : Int, 540 ≤ t → t < 1020 → ∃ b ∈ busy, b.1 ≤ t ∧ t < b.2) :
    find_available_slots busy d = .no_slots := by
  have hscan : ∀ (fuel : Nat) (c : Int), 540 ≤ c → slotScan busy d fuel c = [] := by
    intro fuel
    induction fuel with
    | zero => intro c _; rfl
    | succ n ih =>
      intro c hc
      simp only [slotScan]
      by_cases hcd : c + d ≤ 1020
      · rw [if_pos hcd]
        obtain ⟨b, hb, hb1, hb2⟩ := hcover c hc (by omega)
        have hnotfree : isFreeSlot busy c d = false := by
          by_cases hall : isFreeSlot busy c d
          · exfalso
            simp only [isFreeSlot, List.all_eq_true] at hall
            have := hall b hb
            simp only [Bool.not_eq_true', decide_eq_false_iff_not, not_lt] at this
            have h1 : max c b.1 = c := max_eq_left hb1
            omega
          · simpa using hall
        rw [hnotfree]
        simpa using ih (c + 30) (by omega)
      · rw [if_neg hcd]
  simp only [find_available_slots, availableSlots]
  rw [hscan (scanFuel d) 540 (by omega)]
  rfl

/-- Witness for the amended C4: 30-minute request against a busy set holding
one interval that covers the full window. -/
theorem c4_witness : find_available_slots [(540, 1020)] 30 = .no_slots :=
  c4_cover_gives_no_slots [(540, 1020)] 30 (by norm_num)
    (fun t h1 h2 => ⟨(540, 1020), List.mem_singleton.mpr rfl, by omega, by omega⟩)

/-- C5: for every duration `d ≤ 480` (the width of the working window) and an
empty busy set, `find_available_slots` returns `success` with at least one
candidate, and the first candidate starts at 09:00 (= 540). -/
theorem c5_empty_busy_first_slot (d : Int) (hd : d ≤ 1020 - 540) :
    ∃ rest, find_available_slots [] d = .success (540 :: rest) := by
  have hfree : ∀ c : Int, isFreeSlot [] c d = true := fun _ => rfl
  obtain ⟨rest, hrest⟩ :=
    slotScan_all_free [] d hfree (scanFuel d) 540 (by omega)
      (scanFuel_pos d (by omega))
  refine ⟨rest.take 5, ?_⟩
  simp only [find_available_slots, availableSlots, hrest]
  rfl

/-- Witness for C5 at the concrete duration 30. -/
theorem c5_witness : ∃ rest, find_available_slots [] 30 = .success (540 :: rest) :=
  c5_empty_busy_first_slot 30 (by norm_num)

/-- C10: for every non-positive duration and *every* busy set (a fully
booked day included), the overlap test `max(s, bs) < min(s + d, be)` can
never hold because `min(s + d, be) ≤ s + d ≤ s ≤ max(s, bs)`, so every cursor
position is accepted: `find_available_slots` returns `success` and the first
slot starts at 09:00 (= 540). -/
theorem c10_nonpos_duration_success (busy : List (Int × Int)) (d : Int)
    (hd : d ≤ 0) :
    ∃ rest, find_available_slots busy d = .success (540 :: rest) := by
  obtain ⟨rest, hrest⟩ :=
    slotScan_all_free busy d (isFreeSlot_of_nonpos busy d hd) (scanFuel d) 540
      (by omega) (scanFuel_pos d (by omega))
  refine ⟨rest.take 5, ?_⟩
  simp only [find_available_slots, availableSlots, hrest]
  rfl

/-- Witness for C10: duration 0 against a fully covered window still yields
`success` starting at 09:00. -/
theorem c10_witness :
    ∃ rest, find_available_slots [(540, 1020)] 0 = .success (540 :: rest) :=
  c10_nonpos_duration_success [(540, 1020)] 0 (le_refl 0)

/-- C6: a `success` slot list has at most 6 entries, in strictly increasing
chronological order, and is exactly the first `min 6 n` accepted cursor
positions (`n` = all accepted positions); moreover scanning the whole window
and truncating afterwards (the source) equals stopping the enumeration as
soon as 6 candidates are collected (the spec's `slotScanEarlyStop`). -/
theorem c6_truncation_refines_early_stop (busy : List (Int × Int)) (d : Int)
    (slots : List Int) (hres : find_available_slots busy d = .success slots) :
    slots.length = min 6 (availableSlots busy d).length ∧
    slots.Pairwise (· < ·) ∧
    slots = (availableSlots busy d).take 6 ∧
    (availableSlots busy d).take 6 = slotScanEarlyStop busy d (scanFuel d) 6 540 := by
  simp only [find_available_slots] at hres
  by_cases he : (availableSlots busy d).isEmpty
  · rw [if_pos he] at hres
    exact SlotsResult.noConfusion hres
  · rw [if_neg he] at hres
    injection hres with h
    subst h
    refine ⟨List.length_take 6 _, ?_, rfl, ?_⟩
    · exact (slotScan_sorted busy d (scanFuel d) 540).sublist (List.take_sublist 6 _)
    · exact slotScan_take_eq_earlyStop busy d (scanFuel d) 6 540

/-- Witness for C6 at a concrete busy set and duration. -/
theorem c6_witness :
    ([540, 570, 660, 690, 720, 750] : List Int).length =
      min 6 (availableSlots [(600, 660)] 30).length ∧
    ([540, 570, 660, 690, 720, 750] : List Int).Pairwise (· < ·) ∧
    ([540, 570, 660, 690, 720, 750] : List Int) =
      (availableSlots [(600, 660)] 30).take 6 ∧
    (availableSlots [(600, 660)] 30).take 6 =
      slotScanEarlyStop [(600, 660)] 30 (scanFuel 30) 6 540 :=
  c6_truncation_refines_early_stop [(600, 660)] 30 [540, 570, 660, 690, 720, 750]
    (by decide)

/-!
## Lemmas about the string primitives
-/

theorem dropWhile_eq_self_of_none (p : Char → Bool) (l : List Char)
    (h : ∀ x ∈ l, p x = false) : l.dropWhile p = l := by
  cases l with
  | nil => rfl
  | cons a t =>
    rw [List.dropWhile_cons, h a (List.mem_cons_self a t)]
    simp

theorem dropWhile_append_all (p : Char → Bool) (l1 l2 : List Char)
    (h : ∀ x ∈ l1, p x = true) : (l1 ++ l2).dropWhile p = l2.dropWhile p := by
  induction l1 with
  | nil => rfl
  | cons a t ih =>
    rw [List.cons_append, List.dropWhile_cons, h a (List.mem_cons_self a t)]
    exact ih (fun x hx => h x (List.mem_cons_of_mem a hx))

theorem stripWs_eq_self (l : List Char)
    (h : ∀ x ∈ l, isWsChar x = false) : stripWs l = l := by
  simp only [stripWs]
  rw [dropWhile_eq_self_of_none _ _ h,
      dropWhile_eq_self_of_none _ _ (fun x hx => h x (List.mem_reverse.mp hx)),
      List.reverse_reverse]

theorem stripWs_shape (a b : Char) (xs tail : List Char)
    (ha : isWsChar a = false) (hb : isWsChar b = false)
    (htail : ∀ x ∈ tail, isWsChar x = true) :
    stripWs ((a :: xs) ++ [b] ++ tail) = (a :: xs) ++ [b] := by
  simp only [stripWs]
  have h1 : ((a :: xs) ++ [b] ++ tail).dropWhile isWsChar =
      (a :: xs) ++ [b] ++ tail := by
    rw [List.cons_append, List.cons_append, List.dropWhile_cons, ha]
    simp
  rw [h1]
  have h2 : ((a :: xs) ++ [b] ++ tail).reverse =
      tail.reverse ++ (b :: (xs.reverse ++ [a])) := by
    simp
  rw [h2, dropWhile_append_all _ _ _ (fun x hx => htail x (List.mem_reverse.mp hx)),
      List.dropWhile_cons, hb]
  simp

theorem digit_bounds (c : Char) (h : isDigitChar c = true) :
    48 ≤ c.toNat ∧ c.toNat ≤ 57 := by
  simp only [isDigitChar, Bool.and_eq_true, decide_eq_true_eq] at h
  exact h

theorem digit_ne (c d : Char) (h : isDigitChar c = true)
    (hd : isDigitChar d = false) : c ≠ d := by
  intro he
  subst he
  rw [h] at hd
  cases hd

theorem not_mem_digits (c : Char) (l : List Char)
    (hc : isDigitChar c = false) (hl : l.all isDigitChar = true) : c ∉ l := by
  intro hm
  have := List.all_eq_true.mp hl c hm
  rw [this] at hc
  cases hc

theorem digit_not_ws (c : Char) (h : isDigitChar c = true) :
    isWsChar c = false := by
  obtain ⟨h1, _⟩ := digit_bounds c h
  by_contra hws
  rw [Bool.not_eq_false] at hws
  simp only [isWsChar, Bool.or_eq_true, beq_iff_eq] at hws
  rcases hws with ((((h' | h') | h') | h') | h') | h' <;> subst h' <;>
    exact absurd h1 (by decide)

theorem digit_upper (c : Char) (h : isDigitChar c = true) : upperChar c = c := by
  obtain ⟨_, h2⟩ := digit_bounds c h
  simp only [upperChar]
  rw [if_neg]
  simp only [Bool.and_eq_true, decide_eq_true_eq, not_and]
  omega

theorem upperStr_digits (l : List Char) (h : l.all isDigitChar = true) :
    upperStr l = l := by
  induction l with
  | nil => rfl
  | cons a t ih =>
    rw [List.all_cons, Bool.and_eq_true] at h
    simp only [upperStr, List.map_cons]
    rw [digit_upper a h.1]
    have := ih h.2
    simp only [upperStr] at this
    rw [this]

theorem leadsWith_append_self (p ys : List Char) : leadsWith p (p ++ ys) = true := by
  induction p with
  | nil => rfl
  | cons a t ih => simp [leadsWith, ih]

theorem occursIn_append_self (p xs ys : List Char) :
    occursIn p (xs ++ (p ++ ys)) = true := by
  induction xs with
  | nil =>
    cases p with
    | nil => cases ys <;> simp [occursIn, leadsWith]
    | cons c cs =>
      simp only [List.nil_append, List.cons_append, occursIn, List.append_eq]
      have := leadsWith_append_self (c :: cs) ys
      simp only [List.cons_append] at this
      rw [this]
      simp
  | cons x t ih =>
    simp only [List.cons_append, occursIn, List.append_eq]
    rw [ih]
    simp

theorem occursIn_false_of_not_mem (c : Char) (cs xs : List Char) (h : c ∉ xs) :
    occursIn (c :: cs) xs = false := by
  induction xs with
  | nil => rfl
  | cons x t ih =>
    have hcx : (c == x) = false :=
      beq_eq_false_iff_ne.mpr (fun he => h (he ▸ List.mem_cons_self x t))
    simp only [occursIn, leadsWith, hcx, Bool.false_and, Bool.false_or]
    exact ih (fun hm => h (List.mem_cons_of_mem x hm))

theorem replaceAll_nil (pat rep : List Char) : replaceAll pat rep [] = [] := by
  rw [replaceAll]

theorem replaceAll_not_mem (c : Char) (cs rep xs : List Char) (h : c ∉ xs) :
    replaceAll (c :: cs) rep xs = xs := by
  induction xs with
  | nil => exact replaceAll_nil _ _
  | cons x t ih =>
    have hcx : (c == x) = false :=
      beq_eq_false_iff_ne.mpr (fun he => h (he ▸ List.mem_cons_self x t))
    rw [replaceAll]
    rw [if_neg (by simp [leadsWith, hcx])]
    rw [ih (fun hm => h (List.mem_cons_of_mem x hm))]

theorem replaceAll_boundary (c : Char) (cs rep xs ys : List Char) (h : c ∉ xs) :
    replaceAll (c :: cs) rep (xs ++ (c :: cs) ++ ys) =
      xs ++ rep ++ replaceAll (c :: cs) rep ys := by
  induction xs with
  | nil =>
    simp only [List.nil_append]
    rw [show (c :: cs) ++ ys = c :: (cs ++ ys) from rfl]
    rw [replaceAll]
    rw [if_pos (by
      simp only [Bool.and_eq_true, decide_eq_true_eq]
      refine ⟨by simp, ?_⟩
      have := leadsWith_append_self (c :: cs) ys
      simp only [List.cons_append] at this
      exact this)]
    have hdrop : (c :: (cs ++ ys)).drop (c :: cs).length = ys := by
      have h' := List.drop_left (c :: cs) ys
      simp only [List.cons_append] at h'
      exact h'
    rw [hdrop]
  | cons x t ih =>
    have hcx : (c == x) = false :=
      beq_eq_false_iff_ne.mpr (fun he => h (he ▸ List.mem_cons_self x t))
    simp only [List.cons_append]
    rw [replaceAll]
    rw [if_neg (by simp [leadsWith, hcx])]
    have := ih (fun hm => h (List.mem_cons_of_mem x hm))
    simp only [List.cons_append] at this ⊢
    rw [this]

theorem splitOnChar_not_mem (c : Char) (xs : List Char) (h : c ∉ xs) :
    splitOnChar c xs = [xs] := by
  induction xs with
  | nil => rfl
  | cons x t ih =>
    have hxc : (x == c) = false :=
      beq_eq_false_iff_ne.mpr (fun he => h (he ▸ List.mem_cons_self x t))
    rw [splitOnChar, if_neg (by simp [hxc]), ih (fun hm => h (List.mem_cons_of_mem x hm))]

theorem splitOnChar_boundary (c : Char) (xs ys : List Char) (h : c ∉ xs) :
    splitOnChar c (xs ++ c :: ys) = xs :: splitOnChar c ys := by
  induction xs with
  | nil =>
    simp only [List.nil_append]
    rw [splitOnChar, if_pos (by simp)]
  | cons x t ih =>
    have hxc : (x == c) = false :=
      beq_eq_false_iff_ne.mpr (fun he => h (he ▸ List.mem_cons_self x t))
    simp only [List.cons_append]
    rw [splitOnChar, if_neg (by simp [hxc])]
    rw [ih (fun hm => h (List.mem_cons_of_mem x hm))]

theorem pyIntParse_digits (xs : List Char) (hne : xs ≠ [])
    (hd : xs.all isDigitChar = true) : pyIntParse xs = some (digitsVal xs) := by
  have hstrip : stripWs xs = xs :=
    stripWs_eq_self xs (fun x hx => digit_not_ws x (List.all_eq_true.mp hd x hx))
  rcases xs with _ | ⟨c, r⟩
  · exact absurd rfl hne
  · have hc : isDigitChar c = true := List.all_eq_true.mp hd c (List.mem_cons_self c r)
    have hplus : c ≠ '+' := digit_ne c '+' hc (by decide)
    have hminus : c ≠ '-' := digit_ne c '-' hc (by decide)
    unfold pyIntParse
    rw [hstrip]
    simp only [if_neg hplus, if_neg hminus, if_pos hd]
    rfl

theorem not_mem_core (hs ms sep : List Char) (c : Char)
    (hhs : hs.all isDigitChar = true) (hms : ms.all isDigitChar = true)
    (hsep : sep = [] ∨ sep = [' '])
    (hcd : isDigitChar c = false) (hc1 : c ≠ ':') (hc2 : c ≠ ' ') :
    c ∉ hs ++ ':' :: ms ++ sep := by
  intro hmem
  rcases List.mem_append.mp hmem with h | h
  · rcases List.mem_append.mp h with h' | h'
    · exact not_mem_digits c hs hcd hhs h'
    · rcases List.mem_cons.mp h' with rfl | h''
      · exact hc1 rfl
      · exact not_mem_digits c ms hcd hms h''
  · rcases hsep with rfl | rfl
    · simp at h
    · simp only [List.mem_singleton] at h
      exact hc2 h

theorem not_mem_full (hs ms sep : List Char) (x y c : Char)
    (hhs : hs.all isDigitChar = true) (hms : ms.all isDigitChar = true)
    (hsep : sep = [] ∨ sep = [' '])
    (hcd : isDigitChar c = false) (hc1 : c ≠ ':') (hc2 : c ≠ ' ')
    (hcx : c ≠ x) (hcy : c ≠ y) :
    c ∉ hs ++ ':' :: ms ++ sep ++ [x, y] := by
  intro hmem
  rcases List.mem_append.mp hmem with h | h
  · rcases List.mem_append.mp h with h' | h'
    · rcases List.mem_append.mp h' with h'' | h''
      · exact not_mem_digits c hs hcd hhs h''
      · rcases List.mem_cons.mp h'' with rfl | h3
        · exact hc1 rfl
        · exact not_mem_digits c ms hcd hms h3
    · rcases hsep with rfl | rfl
      · simp at h'
      · simp only [List.mem_singleton] at h'
        exact hc2 h'
  · rcases List.mem_cons.mp h with rfl | h'
    · exact hcx rfl
    · rcases List.mem_cons.mp h' with rfl | h''
      · exact hcy rfl
      · simp at h''

theorem extractHM_eval (expr core hs ms : List Char) (b1 b2 : Bool)
    (hOccA : occursIn ('A' :: ['M']) expr = b1)
    (hOccP : occursIn ('P' :: ['M']) expr = b2)
    (hbr : (b1 || b2) = true)
    (hrep : stripWs (replaceAll ('P' :: ['M']) []
      (replaceAll ('A' :: ['M']) [] expr)) = core)
    (hsplit : splitOnChar ':' core = [hs, ms])
    (hhs_ne : hs ≠ []) (hhs : hs.all isDigitChar = true)
    (hms_ne : ms ≠ []) (hms : ms.all isDigitChar = true) :
    extractHM expr = some
      (if b2 && decide ((digitsVal hs : Int) ≠ 12)
         then (digitsVal hs : Int) + 12
       else if b1 && decide ((digitsVal hs : Int) = 12) then 0
       else (digitsVal hs : Int),
       (digitsVal ms : Int)) := by
  unfold extractHM
  rw [hOccA, hOccP, if_pos hbr, hrep, hsplit]
  simp only [pyIntParse_digits hs hhs_ne hhs, pyIntParse_digits ms hms_ne hms,
    hOccA, hOccP, Option.bind_eq_bind, Option.some_bind]
  rfl

theorem upperStr_append (l1 l2 : List Char) :
    upperStr (l1 ++ l2) = upperStr l1 ++ upperStr l2 := by
  simp [upperStr]

theorem upperStr_keep (l : List Char) (h : ∀ x ∈ l, upperChar x = x) :
    upperStr l = l := by
  induction l with
  | nil => rfl
  | cons a t ih =>
    simp only [upperStr, List.map_cons]
    rw [h a (List.mem_cons_self a t)]
    have := ih (fun x hx => h x (List.mem_cons_of_mem a hx))
    simp only [upperStr] at this
    rw [this]

theorem upperChar_fix_core (hs ms sep : List Char)
    (hhs : hs.all isDigitChar = true) (hms : ms.all isDigitChar = true)
    (hsep : sep = [] ∨ sep = [' ']) :
    ∀ x ∈ hs ++ ':' :: ms ++ sep, upperChar x = x := by
  intro x hx
  rcases List.mem_append.mp hx with h | h
  · rcases List.mem_append.mp h with h' | h'
    · exact digit_upper x (List.all_eq_true.mp hhs x h')
    · rcases List.mem_cons.mp h' with rfl | h''
      · decide
      · exact digit_upper x (List.all_eq_true.mp hms x h'')
  · rcases hsep with rfl | rfl
    · simp at h
    · simp only [List.mem_singleton] at h
      subst h
      decide

theorem parse_time_suffix (hs ms sep date : List Char) (u1 u2 X : Char)
    (hhs_ne : hs ≠ []) (hhs : hs.all isDigitChar = true)
    (hms_ne : ms ≠ []) (hms : ms.all isDigitChar = true)
    (hsep : sep = [] ∨ sep = [' '])
    (hX : X = 'A' ∨ X = 'P')
    (hu1 : upperChar u1 = X) (hu2 : upperChar u2 = 'M')
    (hu2ws : isWsChar u2 = false) :
    parse_time_to_24hour (hs ++ ':' :: ms ++ sep ++ [u1, u2]) date =
      some (date ++ ' ' ::
        (fmt02 (if X = 'P'
                then (if (digitsVal hs : Int) = 12 then 12
                      else (digitsVal hs : Int) + 12)
                else (if (digitsVal hs : Int) = 12 then 0
                      else (digitsVal hs : Int))) ++
         ':' :: fmt02 (digitsVal ms))) := by
  obtain ⟨a, hs', rfl⟩ : ∃ a t, hs = a :: t := by
    cases hs with
    | nil => exact absurd rfl hhs_ne
    | cons a t => exact ⟨a, t, rfl⟩
  have ha : isDigitChar a = true := List.all_eq_true.mp hhs a (List.mem_cons_self _ _)
  have haws : isWsChar a = false := digit_not_ws a ha
  obtain ⟨ms0, mL, rfl⟩ : ∃ l b, ms = l ++ [b] :=
    ⟨ms.dropLast, ms.getLast hms_ne, (List.dropLast_append_getLast hms_ne).symm⟩
  have hmL : isDigitChar mL = true :=
    List.all_eq_true.mp hms mL (by simp)
  have hmLws : isWsChar mL = false := digit_not_ws mL hmL
  -- the raw input has a digit at its head and `u2` at its end, so `strip` is
  -- the identity on it
  have hstrip1 : stripWs ((a :: hs') ++ ':' :: (ms0 ++ [mL]) ++ sep ++ [u1, u2]) =
      (a :: hs') ++ ':' :: (ms0 ++ [mL]) ++ sep ++ [u1, u2] := by
    have h := stripWs_shape a u2 (hs' ++ ':' :: (ms0 ++ [mL]) ++ sep ++ [u1]) []
      haws hu2ws (by simp)
    have hshape : (a :: (hs' ++ ':' :: (ms0 ++ [mL]) ++ sep ++ [u1])) ++ [u2] ++
        ([] : List Char) =
        (a :: hs') ++ ':' :: (ms0 ++ [mL]) ++ sep ++ [u1, u2] := by simp
    have hshape2 : (a :: (hs' ++ ':' :: (ms0 ++ [mL]) ++ sep ++ [u1])) ++ [u2] =
        (a :: hs') ++ ':' :: (ms0 ++ [mL]) ++ sep ++ [u1, u2] := by simp
    rw [hshape, hshape2] at h
    exact h
  -- uppercasing fixes everything but the suffix characters
  have hupper : upperStr ((a :: hs') ++ ':' :: (ms0 ++ [mL]) ++ sep ++ [u1, u2]) =
      (a :: hs') ++ ':' :: (ms0 ++ [mL]) ++ sep ++ [X, 'M'] := by
    have hsplit : (a :: hs') ++ ':' :: (ms0 ++ [mL]) ++ sep ++ [u1, u2] =
        ((a :: hs') ++ ':' :: (ms0 ++ [mL]) ++ sep) ++ [u1, u2] := by simp
    rw [hsplit, upperStr_append,
      upperStr_keep _ (upperChar_fix_core (a :: hs') (ms0 ++ [mL]) sep hhs hms hsep)]
    have hsfx : upperStr [u1, u2] = [X, 'M'] := by
      simp [upperStr, hu1, hu2]
    rw [hsfx]
  unfold parse_time_to_24hour
  rw [hstrip1, hupper]
  -- facts about the uppercased text
  have hAnotP : ('A' : Char) ≠ 'P' := by decide
  rcases hX with rfl | rfl
  · -- AM suffix
    have hOccA : occursIn ('A' :: ['M'])
        ((a :: hs') ++ ':' :: (ms0 ++ [mL]) ++ sep ++ ['A', 'M']) = true := by
      have hshape : (a :: hs') ++ ':' :: (ms0 ++ [mL]) ++ sep ++ ['A', 'M'] =
          ((a :: hs') ++ ':' :: (ms0 ++ [mL]) ++ sep) ++ (('A' :: ['M']) ++ []) := by
        simp
      rw [hshape]
      exact occursIn_append_self _ _ _
    have hOccP : occursIn ('P' :: ['M'])
        ((a :: hs') ++ ':' :: (ms0 ++ [mL]) ++ sep ++ ['A', 'M']) = false :=
      occursIn_false_of_not_mem 'P' ['M'] _
        (not_mem_full (a :: hs') (ms0 ++ [mL]) sep 'A' 'M' 'P' hhs hms hsep
          (by decide) (by decide) (by decide) (by decide) (by decide))
    have hrep1 : replaceAll ('A' :: ['M']) []
        ((a :: hs') ++ ':' :: (ms0 ++ [mL]) ++ sep ++ ['A', 'M']) =
        (a :: hs') ++ ':' :: (ms0 ++ [mL]) ++ sep := by
      have hshape : (a :: hs') ++ ':' :: (ms0 ++ [mL]) ++ sep ++ ['A', 'M'] =
          ((a :: hs') ++ ':' :: (ms0 ++ [mL]) ++ sep) ++ ('A' :: ['M']) ++ [] := by
        simp
      rw [hshape, replaceAll_boundary 'A' ['M'] []
        ((a :: hs') ++ ':' :: (ms0 ++ [mL]) ++ sep) []
        (not_mem_core (a :: hs') (ms0 ++ [mL]) sep 'A' hhs hms hsep
          (by decide) (by decide) (by decide))]
      rw [replaceAll_nil]
      simp
    have hrep2 : replaceAll ('P' :: ['M']) []
        ((a :: hs') ++ ':' :: (ms0 ++ [mL]) ++ sep) =
        (a :: hs') ++ ':' :: (ms0 ++ [mL]) ++ sep :=
      replaceAll_not_mem 'P' ['M'] []
        ((a :: hs') ++ ':' :: (ms0 ++ [mL]) ++ sep)
        (not_mem_core (a :: hs') (ms0 ++ [mL]) sep 'P' hhs hms hsep
          (by decide) (by decide) (by decide))
    have hstrip2 : stripWs ((a :: hs') ++ ':' :: (ms0 ++ [mL]) ++ sep) =
        (a :: hs') ++ ':' :: (ms0 ++ [mL]) := by
      have h := stripWs_shape a mL (hs' ++ ':' :: ms0) sep haws hmLws
        (by rcases hsep with rfl | rfl <;> decide)
      have hshape : (a :: (hs' ++ ':' :: ms0)) ++ [mL] ++ sep =
          (a :: hs') ++ ':' :: (ms0 ++ [mL]) ++ sep := by simp
      have hshape2 : (a :: (hs' ++ ':' :: ms0)) ++ [mL] =
          (a :: hs') ++ ':' :: (ms0 ++ [mL]) := by simp
      rw [hshape, hshape2] at h
      exact h
    have hsplitc : splitOnChar ':' ((a :: hs') ++ ':' :: (ms0 ++ [mL])) =
        [a :: hs', ms0 ++ [mL]] := by
      rw [splitOnChar_boundary ':' (a :: hs') (ms0 ++ [mL])
        (not_mem_digits ':' (a :: hs') (by decide) hhs),
        splitOnChar_not_mem ':' (ms0 ++ [mL]) (not_mem_digits ':' _ (by decide) hms)]
    have heval := extractHM_eval
      ((a :: hs') ++ ':' :: (ms0 ++ [mL]) ++ sep ++ ['A', 'M'])
      ((a :: hs') ++ ':' :: (ms0 ++ [mL])) (a :: hs') (ms0 ++ [mL]) true false
      hOccA hOccP (by simp) (by rw [hrep1, hrep2, hstrip2]) hsplitc
      hhs_ne hhs hms_ne hms
    rw [heval]
    simp only [Bool.false_and, Bool.true_and, Bool.false_eq_true, if_false]
    by_cases h12 : (digitsVal (a :: hs') : Int) = 12
    · simp [h12, hAnotP]
    · simp [h12, hAnotP]
  · -- PM suffix
    have hOccP : occursIn ('P' :: ['M'])
        ((a :: hs') ++ ':' :: (ms0 ++ [mL]) ++ sep ++ ['P', 'M']) = true := by
      have hshape : (a :: hs') ++ ':' :: (ms0 ++ [mL]) ++ sep ++ ['P', 'M'] =
          ((a :: hs') ++ ':' :: (ms0 ++ [mL]) ++ sep) ++ (('P' :: ['M']) ++ []) := by
        simp
      rw [hshape]
      exact occursIn_append_self _ _ _
    have hOccA : occursIn ('A' :: ['M'])
        ((a :: hs') ++ ':' :: (ms0 ++ [mL]) ++ sep ++ ['P', 'M']) = false :=
      occursIn_false_of_not_mem 'A' ['M'] _
        (not_mem_full (a :: hs') (ms0 ++ [mL]) sep 'P' 'M' 'A' hhs hms hsep
          (by decide) (by decide) (by decide) (by decide) (by decide))
    have hrep1 : replaceAll ('A' :: ['M']) []
        ((a :: hs') ++ ':' :: (ms0 ++ [mL]) ++ sep ++ ['P', 'M']) =
        (a :: hs') ++ ':' :: (ms0 ++ [mL]) ++ sep ++ ['P', 'M'] :=
      replaceAll_not_mem 'A' ['M'] [] _
        (not_mem_full (a :: hs') (ms0 ++ [mL]) sep 'P' 'M' 'A' hhs hms hsep
          (by decide) (by decide) (by decide) (by decide) (by decide))
    have hrep2 : replaceAll ('P' :: ['M']) []
        ((a :: hs') ++ ':' :: (ms0 ++ [mL]) ++ sep ++ ['P', 'M']) =
        (a :: hs') ++ ':' :: (ms0 ++ [mL]) ++ sep := by
      have hshape : (a :: hs') ++ ':' :: (ms0 ++ [mL]) ++ sep ++ ['P', 'M'] =
          ((a :: hs') ++ ':' :: (ms0 ++ [mL]) ++ sep) ++ ('P' :: ['M']) ++ [] := by
        simp
      rw [hshape, replaceAll_boundary 'P' ['M'] []
        ((a :: hs') ++ ':' :: (ms0 ++ [mL]) ++ sep) []
        (not_mem_core (a :: hs') (ms0 ++ [mL]) sep 'P' hhs hms hsep
          (by decide) (by decide) (by decide))]
      rw [replaceAll_nil]
      simp
    have hstrip2 : stripWs ((a :: hs') ++ ':' :: (ms0 ++ [mL]) ++ sep) =
        (a :: hs') ++ ':' :: (ms0 ++ [mL]) := by
      have h := stripWs_shape a mL (hs' ++ ':' :: ms0) sep haws hmLws
        (by rcases hsep with rfl | rfl <;> decide)
      have hshape : (a :: (hs' ++ ':' :: ms0)) ++ [mL] ++ sep =
          (a :: hs') ++ ':' :: (ms0 ++ [mL]) ++ sep := by simp
      have hshape2 : (a :: (hs' ++ ':' :: ms0)) ++ [mL] =
          (a :: hs') ++ ':' :: (ms0 ++ [mL]) := by simp
      rw [hshape, hshape2] at h
      exact h
    have hsplitc : splitOnChar ':' ((a :: hs') ++ ':' :: (ms0 ++ [mL])) =
        [a :: hs', ms0 ++ [mL]] := by
      rw [splitOnChar_boundary ':' (a :: hs') (ms0 ++ [mL])
        (not_mem_digits ':' (a :: hs') (by decide) hhs),
        splitOnChar_not_mem ':' (ms0 ++ [mL]) (not_mem_digits ':' _ (by decide) hms)]
    have heval := extractHM_eval
      ((a :: hs') ++ ':' :: (ms0 ++ [mL]) ++ sep ++ ['P', 'M'])
      ((a :: hs') ++ ':' :: (ms0 ++ [mL])) (a :: hs') (ms0 ++ [mL]) false true
      hOccA hOccP (by simp) (by rw [hrep1, hrep2, hstrip2]) hsplitc
      hhs_ne hhs hms_ne hms
    rw [heval]
    simp only [Bool.false_and, Bool.true_and, Bool.false_eq_true, if_false]
    by_cases h12 : (digitsVal (a :: hs') : Int) = 12
    · simp [h12]
    · simp [h12]

theorem parse_time_bare (hs ms date : List Char)
    (hhs_ne : hs ≠ []) (hhs : hs.all isDigitChar = true)
    (hms_ne : ms ≠ []) (hms : ms.all isDigitChar = true) :
    parse_time_to_24hour (hs ++ ':' :: ms) date =
      some (date ++ ' ' ::
        (fmt02 (digitsVal hs) ++ ':' :: fmt02 (digitsVal ms))) := by
  obtain ⟨a, hs', rfl⟩ : ∃ a t, hs = a :: t := by
    cases hs with
    | nil => exact absurd rfl hhs_ne
    | cons a t => exact ⟨a, t, rfl⟩
  have ha : isDigitChar a = true := List.all_eq_true.mp hhs a (List.mem_cons_self _ _)
  have haws : isWsChar a = false := digit_not_ws a ha
  obtain ⟨ms0, mL, rfl⟩ : ∃ l b, ms = l ++ [b] :=
    ⟨ms.dropLast, ms.getLast hms_ne, (List.dropLast_append_getLast hms_ne).symm⟩
  have hmL : isDigitChar mL = true := List.all_eq_true.mp hms mL (by simp)
  have hmLws : isWsChar mL = false := digit_not_ws mL hmL
  have hstrip1 : stripWs ((a :: hs') ++ ':' :: (ms0 ++ [mL])) =
      (a :: hs') ++ ':' :: (ms0 ++ [mL]) := by
    have h := stripWs_shape a mL (hs' ++ ':' :: ms0) [] haws hmLws (by simp)
    have hshape : (a :: (hs' ++ ':' :: ms0)) ++ [mL] ++ ([] : List Char) =
        (a :: hs') ++ ':' :: (ms0 ++ [mL]) := by simp
    have hshape2 : (a :: (hs' ++ ':' :: ms0)) ++ [mL] =
        (a :: hs') ++ ':' :: (ms0 ++ [mL]) := by simp
    rw [hshape, hshape2] at h
    exact h
  have hupper : upperStr ((a :: hs') ++ ':' :: (ms0 ++ [mL])) =
      (a :: hs') ++ ':' :: (ms0 ++ [mL]) := by
    have h := upperStr_keep ((a :: hs') ++ ':' :: (ms0 ++ [mL]) ++ ([] : List Char))
      (upperChar_fix_core (a :: hs') (ms0 ++ [mL]) [] hhs hms (Or.inl rfl))
    simpa using h
  unfold parse_time_to_24hour
  rw [hstrip1, hupper]
  have hOccA : occursIn ('A' :: ['M']) ((a :: hs') ++ ':' :: (ms0 ++ [mL])) = false := by
    have h := occursIn_false_of_not_mem 'A' ['M']
      ((a :: hs') ++ ':' :: (ms0 ++ [mL]) ++ ([] : List Char))
      (not_mem_core (a :: hs') (ms0 ++ [mL]) [] 'A' hhs hms (Or.inl rfl)
        (by decide) (by decide) (by decide))
    simpa using h
  have hOccP : occursIn ('P' :: ['M']) ((a :: hs') ++ ':' :: (ms0 ++ [mL])) = false := by
    have h := occursIn_false_of_not_mem 'P' ['M']
      ((a :: hs') ++ ':' :: (ms0 ++ [mL]) ++ ([] : List Char))
      (not_mem_core (a :: hs') (ms0 ++ [mL]) [] 'P' hhs hms (Or.inl rfl)
        (by decide) (by decide) (by decide))
    simpa using h
  have hsplitc : splitOnChar ':' ((a :: hs') ++ ':' :: (ms0 ++ [mL])) =
      [a :: hs', ms0 ++ [mL]] := by
    rw [splitOnChar_boundary ':' (a :: hs') (ms0 ++ [mL])
      (not_mem_digits ':' (a :: hs') (by decide) hhs),
      splitOnChar_not_mem ':' (ms0 ++ [mL]) (not_mem_digits ':' _ (by decide) hms)]
  unfold extractHM
  rw [hOccA, hOccP]
  rw [if_neg (by simp)]
  rw [hsplitc]
  simp only [pyIntParse_digits (a :: hs') (by simp) hhs,
    pyIntParse_digits (ms0 ++ [mL]) (by simp) hms,
    Option.bind_eq_bind, Option.some_bind]
  rfl

/-!
## Claims about the time normalizer
-/

/-- C7: on every well-formed 12-hour expression `H:MM` followed by an
AM/PM suffix (any casing, glued or separated by one space) the normalizer
maps hour 12 with AM to 0, keeps hour 12 with PM, adds 12 exactly when the
suffix is PM and the hour is not 12, and returns the zero-padded
`<date> HH:MM` string; on every well-formed bare 24-hour `HH:MM` expression
it returns the zero-padded string unchanged; in particular
`parse_time_to_24hour("11:30 AM", "2025-06-24") = "2025-06-24 11:30"` and
`parse_time_to_24hour("2:00 PM", "2025-06-24") = "2025-06-24 14:00"`. -/
theorem c7_normalizer_12hour_rule :
    (∀ (hs ms sep date : List Char) (u1 u2 : Char),
      hs ≠ [] → hs.all isDigitChar = true →
      ms ≠ [] → ms.all isDigitChar = true →
      1 ≤ digitsVal hs → digitsVal hs ≤ 12 → digitsVal ms ≤ 59 →
      (sep = [] ∨ sep = [' ']) →
      ((u1 = 'A' ∨ u1 = 'a') ∨ (u1 = 'P' ∨ u1 = 'p')) →
      (u2 = 'M' ∨ u2 = 'm') →
      parse_time_to_24hour (hs ++ ':' :: ms ++ sep ++ [u1, u2]) date =
        some (date ++ ' ' ::
          (fmt02 (if u1 = 'P' ∨ u1 = 'p'
                  then (if (digitsVal hs : Int) = 12 then 12
                        else (digitsVal hs : Int) + 12)
                  else (if (digitsVal hs : Int) = 12 then 0
                        else (digitsVal hs : Int))) ++
           ':' :: fmt02 (digitsVal ms)))) ∧
    (∀ (hs ms date : List Char),
      hs ≠ [] → hs.all isDigitChar = true →
      ms ≠ [] → ms.all isDigitChar = true →
      digitsVal hs ≤ 23 → digitsVal ms ≤ 59 →
      parse_time_to_24hour (hs ++ ':' :: ms) date =
        some (date ++ ' ' ::
          (fmt02 (digitsVal hs) ++ ':' :: fmt02 (digitsVal ms)))) ∧
    parse_time_to_24hour "11:30 AM".toList "2025-06-24".toList =
      some "2025-06-24 11:30".toList ∧
    parse_time_to_24hour "2:00 PM".toList "2025-06-24".toList =
      some "2025-06-24 14:00".toList := by
  refine ⟨?_, ?_, ?_, ?_⟩
  case refine_3 =>
    have h := parse_time_suffix ['1', '1'] ['3', '0'] [' '] "2025-06-24".toList
      'A' 'M' 'A' (by decide) (by decide) (by decide) (by decide) (Or.inr rfl)
      (Or.inl rfl) (by decide) (by decide) (by decide)
    exact h.trans (by decide)
  case refine_4 =>
    have h := parse_time_suffix ['2'] ['0', '0'] [' '] "2025-06-24".toList
      'P' 'M' 'P' (by decide) (by decide) (by decide) (by decide) (Or.inr rfl)
      (Or.inr rfl) (by decide) (by decide) (by decide)
    exact h.trans (by decide)
  · intro hs ms sep date u1 u2 hne hd mne md _ _ _ hsep hu1 hu2
    have hcase : ∀ X : Char, (X = 'A' ∨ X = 'P') → upperChar u1 = X →
        (u1 = 'P' ∨ u1 = 'p' ↔ X = 'P') → upperChar u2 = 'M' →
        isWsChar u2 = false →
        parse_time_to_24hour (hs ++ ':' :: ms ++ sep ++ [u1, u2]) date =
          some (date ++ ' ' ::
            (fmt02 (if u1 = 'P' ∨ u1 = 'p'
                    then (if (digitsVal hs : Int) = 12 then 12
                          else (digitsVal hs : Int) + 12)
                    else (if (digitsVal hs : Int) = 12 then 0
                          else (digitsVal hs : Int))) ++
             ':' :: fmt02 (digitsVal ms))) := by
      intro X hX hup1 hiff hup2 hws
      rw [parse_time_suffix hs ms sep date u1 u2 X hne hd mne md hsep hX hup1
        hup2 hws]
      by_cases hp : u1 = 'P' ∨ u1 = 'p'
      · rw [if_pos hp, if_pos (hiff.mp hp)]
      · rw [if_neg hp, if_neg (fun hxp => hp (hiff.mpr hxp))]
    rcases hu2 with rfl | rfl <;> rcases hu1 with (rfl | rfl) | (rfl | rfl)
    · exact hcase 'A' (Or.inl rfl) (by decide) (by simp) (by decide) (by decide)
    · exact hcase 'A' (Or.inl rfl) (by decide) (by simp) (by decide) (by decide)
    · exact hcase 'P' (Or.inr rfl) (by decide) (by simp) (by decide) (by decide)
    · exact hcase 'P' (Or.inr rfl) (by decide) (by simp) (by decide) (by decide)
    · exact hcase 'A' (Or.inl rfl) (by decide) (by simp) (by decide) (by decide)
    · exact hcase 'A' (Or.inl rfl) (by decide) (by simp) (by decide) (by decide)
    · exact hcase 'P' (Or.inr rfl) (by decide) (by simp) (by decide) (by decide)
    · exact hcase 'P' (Or.inr rfl) (by decide) (by simp) (by decide) (by decide)
  · intro hs ms date hne hd mne md _ _
    exact parse_time_bare hs ms date hne hd mne md

/-- Witness for C7: the theorem applied at `"2:00 PM"` (spaced, upper-case)
and at the bare form (the examples in the theorem are closed already). -/
theorem c7_witness :
    parse_time_to_24hour (['2'] ++ ':' :: ['0', '0'] ++ [' '] ++ ['P', 'M'])
        "2025-06-24".toList =
      some ("2025-06-24".toList ++ ' ' ::
        (fmt02 (if ('P' : Char) = 'P' ∨ ('P' : Char) = 'p'
                then (if (digitsVal ['2'] : Int) = 12 then 12
                      else (digitsVal ['2'] : Int) + 12)
                else (if (digitsVal ['2'] : Int) = 12 then 0
                      else (digitsVal ['2'] : Int))) ++
         ':' :: fmt02 (digitsVal ['0', '0']))) :=
  c7_normalizer_12hour_rule.1 ['2'] ['0', '0'] [' '] "2025-06-24".toList 'P' 'M'
    (by decide) (by decide) (by decide) (by decide) (by decide) (by decide)
    (by decide) (Or.inr rfl) (Or.inr (Or.inl rfl)) (Or.inl rfl)

/-- C3, counterexample: the claim says out-of-range hours or minutes make the
normalizer return a null value and never a datetime string, but the source
performs no range check: hour 25 and minute 99 pass straight through into the
formatted output. -/
theorem c3_counterexample :
    parse_time_to_24hour "25:99".toList "2025-06-24".toList =
      some "2025-06-24 25:99".toList := by decide

/-- C3 as amended: the normalizer is a total function that returns null
exactly on structural parse failures (wrong number of `:`-fields, or a field
`int()` rejects) and never raises; numerically out-of-range hours and minutes
are *not* rejected — for any two digit fields, whatever their value, the
zero-padded formatted string is returned.  The claim's non-numeric example
behaves as stated: `parse_time_to_24hour("not-a-time", ..) = none`. -/
theorem c3_no_range_check :
    (∀ (hs ms date : List Char),
      hs ≠ [] → hs.all isDigitChar = true →
      ms ≠ [] → ms.all isDigitChar = true →
      parse_time_to_24hour (hs ++ ':' :: ms) date =
        some (date ++ ' ' ::
          (fmt02 (digitsVal hs) ++ ':' :: fmt02 (digitsVal ms)))) ∧
    (∀ (t date : List Char),
      parse_time_to_24hour t date = none ∨
      ∃ h m : Int, parse_time_to_24hour t date =
        some (date ++ ' ' :: (fmt02 h ++ ':' :: fmt02 m))) ∧
    parse_time_to_24hour "not-a-time".toList "2025-06-24".toList = none := by
  refine ⟨?_, ?_, by decide⟩
  · intro hs ms date hne hd mne md
    exact parse_time_bare hs ms date hne hd mne md
  · intro t date
    rcases hE : extractHM (upperStr (stripWs t)) with _ | ⟨h, m⟩
    · left
      unfold parse_time_to_24hour
      rw [hE]
    · right
      refine ⟨h, m, ?_⟩
      unfold parse_time_to_24hour
      rw [hE]

/-- Witness for the amended C3: the out-of-range fields 25 and 99 are
formatted, not rejected. -/
theorem c3_witness :
    parse_time_to_24hour (['2', '5'] ++ ':' :: ['9', '9']) "2025-06-24".toList =
      some ("2025-06-24".toList ++ ' ' ::
        (fmt02 (digitsVal ['2', '5']) ++ ':' :: fmt02 (digitsVal ['9', '9']))) :=
  c3_no_range_check.1 ['2', '5'] ['9', '9'] "2025-06-24".toList
    (by decide) (by decide) (by decide) (by decide)

/-!
## Lemmas about the dispatch section
-/

theorem pyGetItem_error (v : Json) (k : List Char) (e : PyErr)
    (h : pyGetItem v k = .error e) : e = .keyError ∨ e = .typeError := by
  cases v with
  | jobj kvs =>
    simp only [pyGetItem] at h
    rcases hL : (kvs.filter fun kv => kv.1 = k).getLast? with _ | kv <;>
      rw [hL] at h
    · injection h with h'
      exact Or.inl h'.symm
    · exact Except.noConfusion h
  | null => injection h with h'; exact Or.inr h'.symm
  | jbool b => injection h with h'; exact Or.inr h'.symm
  | jnum n => injection h with h'; exact Or.inr h'.symm
  | jstr s => injection h with h'; exact Or.inr h'.symm
  | jarr xs => injection h with h'; exact Or.inr h'.symm

theorem parseToolCall_error_typeError (rt : List Char) (e : PyErr)
    (h : parseToolCall rt = .error e) : e = .typeError := by
  unfold parseToolCall at h
  split at h
  · split at h
    · exact Except.noConfusion h
    · split at h
      · exact Except.noConfusion h
      · injection h with h'
        subst h'
        rename_i hne heq
        rcases pyGetItem_error _ _ _ heq with hk | ht
        · exact absurd hk hne
        · exact ht
      · split at h
        · exact Except.noConfusion h
        · injection h with h'
          subst h'
          rename_i hne heq
          rcases pyGetItem_error _ _ _ heq with hk | ht
          · exact absurd hk hne
          · exact ht
        · split at h
          · exact Except.noConfusion h
          · injection h with h'
            subst h'
            rename_i hne heq
            rcases pyGetItem_error _ _ _ heq with hk | ht
            · exact absurd hk hne
            · exact ht
          · exact Except.noConfusion h
  · exact Except.noConfusion h

theorem dispatchTool_error (busy : List (Int × Int)) (name arguments : Json)
    (e : PyErr) (h : dispatchTool busy name arguments = .error e) :
    e = .typeError := by
  unfold dispatchTool at h
  split at h
  · split at h
    · split at h
      · split at h
        · exact Except.noConfusion h
        · injection h with h'
          exact h'.symm
      · injection h with h'
        exact h'.symm
    · split at h
      · split at h
        · split at h
          · exact Except.noConfusion h
          · injection h with h'
            exact h'.symm
        · injection h with h'
          exact h'.symm
      · exact Except.noConfusion h
  · exact Except.noConfusion h

/-!
## Claims about the dispatch loop
-/

/-- C2, counterexample: a parsed tool call whose argument names do not match
the target operation's parameters makes `find_available_slots(**args)` raise
`TypeError`; the handler catches only `JSONDecodeError` and `KeyError`, so
the exception escapes the iteration (second component `some typeError`)
instead of being converted into an error-status result. -/
theorem c2_counterexample :
    mainLoopIteration [] "hi".toList kwargsMismatchOutput "ok".toList [] =
      ([⟨.user, .text "hi".toList⟩], some .typeError) := rfl

/-- C2 as amended: an unrecognized tool name yields the generic
`{"status": "error", "message": "Unknown tool."}` result without dispatching,
and that result is fed to the summarization step; the tool bodies themselves
never raise (their blanket `except` converts failures into error-status
results); but the only exception that can escape the iteration is the
`TypeError` of keyword binding / non-mapping subscripting, which is not
caught. -/
theorem c2_unknown_tool_and_typeerror (history : List Turn)
    (ui rt sm : List Char) (busy : List (Int × Int)) :
    (∀ inv : ToolInvocation, parseToolCall rt = .ok (some inv) →
      inv.name ≠ .jstr "find_available_slots".toList →
      inv.name ≠ .jstr "schedule_meeting".toList →
      mainLoopIteration history ui rt sm busy =
        (history ++ [⟨.user, .text ui⟩, ⟨.model, .text rt⟩,
                     ⟨.user, .toolResponse (errorJson "Unknown tool.".toList)⟩,
                     ⟨.model, .text sm⟩], none)) ∧
    (∀ e, (mainLoopIteration history ui rt sm busy).2 = some e →
      e = .typeError) := by
  constructor
  · intro inv hP h1 h2
    have hD : dispatchTool busy inv.name inv.arguments =
        .ok (errorJson "Unknown tool.".toList) := by
      unfold dispatchTool
      cases hn : inv.name with
      | jstr s =>
        simp only []
        rw [if_neg (fun hx => h1 (by rw [hn, hx])),
            if_neg (fun hx => h2 (by rw [hn, hx]))]
      | null => rfl
      | jbool b => rfl
      | jnum n => rfl
      | jarr xs => rfl
      | jobj kvs => rfl
    simp [mainLoopIteration, hP, hD]
  · intro e he
    rcases hP : parseToolCall rt with eP | o
    · have heq : eP = e := by
        simp [mainLoopIteration, hP] at he
        exact he
      exact heq ▸ parseToolCall_error_typeError rt eP hP
    · rcases o with _ | inv
      · simp [mainLoopIteration, hP] at he
      · rcases hD : dispatchTool busy inv.name inv.arguments with eD | res
        · have heq : eD = e := by
            simp [mainLoopIteration, hP, hD] at he
            exact he
          exact heq ▸ dispatchTool_error busy inv.name inv.arguments eD hD
        · simp [mainLoopIteration, hP, hD] at he

/-- Witness for the amended C2: a call naming the unregistered tool
`mystery_tool` produces the generic error result and a completed iteration. -/
theorem c2_witness :
    mainLoopIteration [] "hi".toList
        "\x7b\"tool_call\": \x7b\"name\": \"mystery_tool\", \"arguments\": \x7b\x7d\x7d\x7d".toList
        "sum".toList [] =
      ([⟨.user, .text "hi".toList⟩,
        ⟨.model, .text "\x7b\"tool_call\": \x7b\"name\": \"mystery_tool\", \"arguments\": \x7b\x7d\x7d\x7d".toList⟩,
        ⟨.user, .toolResponse (errorJson "Unknown tool.".toList)⟩,
        ⟨.model, .text "sum".toList⟩], none) :=
  (c2_unknown_tool_and_typeerror [] "hi".toList
      "\x7b\"tool_call\": \x7b\"name\": \"mystery_tool\", \"arguments\": \x7b\x7d\x7d\x7d".toList
      "sum".toList []).1
    ⟨.jstr "mystery_tool".toList, .jobj []⟩ rfl
    (by intro hcon; injection hcon with hs; exact absurd hs (by decide))
    (by intro hcon; injection hcon with hs; exact absurd hs (by decide))

/-- C9, counterexample: in the iteration killed by the uncaught `TypeError`
of a mismatched tool call, the raw model output is *not* appended to the
transcript (only the user turn has been appended when the process dies),
although a tool call was detected. -/
theorem c9_counterexample :
    mainLoopIteration [] "hi".toList kwargsMismatchOutput2 "ok".toList [] =
      ([⟨.user, .text "hi".toList⟩], some .typeError) ∧
    (⟨.model, .text kwargsMismatchOutput2⟩ : Turn) ∉
      (mainLoopIteration [] "hi".toList kwargsMismatchOutput2 "ok".toList []).1 := by
  refine ⟨rfl, ?_⟩
  intro hm
  rw [show (mainLoopIteration [] "hi".toList kwargsMismatchOutput2 "ok".toList
      []).1 = [⟨.user, .text "hi".toList⟩] from rfl] at hm
  simp only [List.mem_singleton, Turn.mk.injEq] at hm
  exact Role.noConfusion hm.1

/-- C9 as amended: the transcript only ever grows (the input history is a
prefix of the output in every case); in an iteration that completes without
an uncaught exception the appends are exactly the claimed ones — user turn,
raw model output as a model turn regardless of the branch, and on the tool
path the sentinel-marked tool result as a user turn followed by the summary
as a model turn (tool execution itself appends nothing); in an iteration
killed by an uncaught dispatch exception only the user turn has been
appended. -/
theorem c9_transcript_append_only (history : List Turn)
    (ui rt sm : List Char) (busy : List (Int × Int)) :
    (∃ tail, (mainLoopIteration history ui rt sm busy).1 = history ++ tail) ∧
    ((mainLoopIteration history ui rt sm busy).2 = none →
      (mainLoopIteration history ui rt sm busy).1 =
        history ++ [⟨.user, .text ui⟩, ⟨.model, .text rt⟩] ∨
      ∃ result, (mainLoopIteration history ui rt sm busy).1 =
        history ++ [⟨.user, .text ui⟩, ⟨.model, .text rt⟩,
                    ⟨.user, .toolResponse result⟩, ⟨.model, .text sm⟩]) ∧
    (∀ e, (mainLoopIteration history ui rt sm busy).2 = some e →
      (mainLoopIteration history ui rt sm busy).1 =
        history ++ [⟨.user, .text ui⟩]) := by
  refine ⟨?_, ?_, ?_⟩
  · rcases hP : parseToolCall rt with eP | o
    · exact ⟨[⟨.user, .text ui⟩], by simp [mainLoopIteration, hP]⟩
    · rcases o with _ | inv
      · exact ⟨[⟨.user, .text ui⟩, ⟨.model, .text rt⟩],
          by simp [mainLoopIteration, hP]⟩
      · rcases hD : dispatchTool busy inv.name inv.arguments with eD | res
        · exact ⟨[⟨.user, .text ui⟩], by simp [mainLoopIteration, hP, hD]⟩
        · exact ⟨[⟨.user, .text ui⟩, ⟨.model, .text rt⟩,
                  ⟨.user, .toolResponse res⟩, ⟨.model, .text sm⟩],
            by simp [mainLoopIteration, hP, hD]⟩
  · intro hnone
    rcases hP : parseToolCall rt with eP | o
    · simp [mainLoopIteration, hP] at hnone
    · rcases o with _ | inv
      · left
        simp [mainLoopIteration, hP]
      · rcases hD : dispatchTool busy inv.name inv.arguments with eD | res
        · simp [mainLoopIteration, hP, hD] at hnone
        · right
          exact ⟨res, by simp [mainLoopIteration, hP, hD]⟩
  · intro e he
    rcases hP : parseToolCall rt with eP | o
    · simp [mainLoopIteration, hP]
    · rcases o with _ | inv
      · simp [mainLoopIteration, hP] at he
      · rcases hD : dispatchTool busy inv.name inv.arguments with eD | res
        · simp [mainLoopIteration, hP, hD]
        · simp [mainLoopIteration, hP, hD] at he

/-- Witness for the amended C9: a plain conversational output appends exactly
the user turn and the model turn. -/
theorem c9_witness :
    (mainLoopIteration [] "hi".toList "all good".toList "sum".toList []).1 =
      [] ++ [⟨.user, .text "hi".toList⟩, ⟨.model, .text "all good".toList⟩] ∨
    ∃ result,
      (mainLoopIteration [] "hi".toList "all good".toList "sum".toList []).1 =
        [] ++ [⟨.user, .text "hi".toList⟩, ⟨.model, .text "all good".toList⟩,
               ⟨.user, .toolResponse result⟩, ⟨.model, .text "sum".toList⟩] :=
  (c9_transcript_append_only [] "hi".toList "all good".toList "sum".toList
    []).2.1 rfl

/-- C8, counterexample: the claim says that a decoded object lacking the
`tool_call.name`/`tool_call.arguments` pair makes the parser yield none with
no error, but when the `tool_call` key maps to a non-object (here the number
5) the lookup `data["tool_call"]["name"]` raises `TypeError`, which the
handler does not catch. -/
theorem c8_counterexample :
    parseToolCall "tool_call \x7b\"tool_call\": 5\x7d".toList =
      .error .typeError ∧
    parseToolCall "tool_call \x7b\"tool_call\": 5\x7d".toList ≠ .ok none :=
  ⟨rfl, fun hcon => Except.noConfusion hcon⟩

set_option maxRecDepth 10000 in
/-- C8 as amended: a tool call is detected exactly when the marker
`tool_call` and a `{` both occur; the substring from the first `{` to the
last `}` is decoded, and the parser yields none (plain conversational text)
when decoding fails or when the `tool_call` key — or the `name` or
`arguments` key inside its object value — is missing (`KeyError` is caught);
but a `tool_call` value that is not an object raises an uncaught `TypeError`
instead of yielding none.  On the section-8 example the parser returns the
`find_available_slots` invocation; prose with no brace yields none. -/
theorem c8_detection_and_fallback :
    (∀ rt : List Char,
      (occursIn "tool_call".toList rt && rt.contains '{') = false →
      parseToolCall rt = .ok none) ∧
    (∀ rt : List Char,
      (occursIn "tool_call".toList rt && rt.contains '{') = true →
      jsonLoads (sliceBraces rt) = none →
      parseToolCall rt = .ok none) ∧
    (∀ (rt : List Char) (data : Json),
      (occursIn "tool_call".toList rt && rt.contains '{') = true →
      jsonLoads (sliceBraces rt) = some data →
      pyGetItem data "tool_call".toList = .error .keyError →
      parseToolCall rt = .ok none) ∧
    (∀ (rt : List Char) (data tc : Json),
      (occursIn "tool_call".toList rt && rt.contains '{') = true →
      jsonLoads (sliceBraces rt) = some data →
      pyGetItem data "tool_call".toList = .ok tc →
      pyGetItem tc "name".toList = .error .keyError →
      parseToolCall rt = .ok none) ∧
    (∀ (rt : List Char) (data tc nm : Json),
      (occursIn "tool_call".toList rt && rt.contains '{') = true →
      jsonLoads (sliceBraces rt) = some data →
      pyGetItem data "tool_call".toList = .ok tc →
      pyGetItem tc "name".toList = .ok nm →
      pyGetItem tc "arguments".toList = .error .keyError →
      parseToolCall rt = .ok none) ∧
    (∀ (rt : List Char) (data tc : Json),
      (occursIn "tool_call".toList rt && rt.contains '{') = true →
      jsonLoads (sliceBraces rt) = some data →
      pyGetItem data "tool_call".toList = .ok tc →
      pyGetItem tc "name".toList = .error .typeError →
      parseToolCall rt = .error .typeError) ∧
    parseToolCall
        "Sure! \x7b\"tool_call\": \x7b\"name\": \"find_available_slots\", \"arguments\": \x7b\"duration_minutes\": 30, \"date_str\": \"2025-06-24\"\x7d\x7d\x7d".toList =
      .ok (some ⟨.jstr "find_available_slots".toList,
        .jobj [("duration_minutes".toList, .jnum 30),
               ("date_str".toList, .jstr "2025-06-24".toList)]⟩) ∧
    (∀ rt : List Char, rt.contains '{' = false → parseToolCall rt = .ok none) := by
  refine ⟨?_, ?_, ?_, ?_, ?_, ?_, rfl, ?_⟩
  · intro rt h
    unfold parseToolCall
    rw [h]
    rfl
  · intro rt h hJ
    unfold parseToolCall
    rw [h, hJ]
    rfl
  · intro rt data h hJ hT
    unfold parseToolCall
    rw [h, hJ]
    simp only []
    rw [hT]
    rfl
  · intro rt data tc h hJ hT hN
    unfold parseToolCall
    rw [h, hJ]
    simp only []
    rw [hT]
    simp only []
    rw [hN]
    rfl
  · intro rt data tc nm h hJ hT hN hA
    unfold parseToolCall
    rw [h, hJ]
    simp only []
    rw [hT]
    simp only []
    rw [hN]
    simp only []
    rw [hA]
    rfl
  · intro rt data tc h hJ hT hN
    unfold parseToolCall
    rw [h, hJ]
    simp only []
    rw [hT]
    simp only []
    rw [hN]
    rfl
  · intro rt h
    unfold parseToolCall
    rw [Bool.and_eq_false_iff.mpr (Or.inr h)]
    rfl

/-- Witness for the amended C8: prose with no braces yields none. -/
theorem c8_witness :
    parseToolCall "Happy to help with your scheduling needs.".toList = .ok none :=
  c8_detection_and_fallback.2.2.2.2.2.2.2
    "Happy to help with your scheduling needs.".toList rfl
